import Mathlib

/-!
Verification of the retrieval-and-routing engine of the `demo_indabax` RAG
system (files `vector_store.py`, `reranker.py`, `rag.py`, `conversation.py`,
`web_search.py`).

Modelling conventions:
* Python floats are modelled exactly by `ℚ`.
* The pgvector cosine-distance operator `<=>` is external to the repository;
  it is modelled as an abstract parameter `dist : List ℚ → List ℚ → ℚ` of the
  search operations.  The SQL `ORDER BY embedding <=> q LIMIT n` is modelled
  by a stable insertion sort on the distance key followed by `take n`
  (ties broken by storage order).
* Chunk identifiers (UUID primary keys) are modelled by `Nat`.
* JSONB metadata is modelled as an association list of string key/value
  pairs; the `@>` containment filter checks that every filter key is bound
  to the filter value.
* The LLM provider, the embedding provider, the cross-encoder scorer and the
  web-search provider are external collaborators; each is a parameter of the
  orchestrator functions.  The Redis conversation store is modelled as the
  list of `(conversation_id, message)` pairs appended so far (timestamps and
  TTL expiry are not modelled).
-/

namespace DemoIndabax

/-- A stored row of the `documents` table (`vector_store.py`):
`id`, `content`, `metadata`, `embedding` (plus a `created_at` column that no
search result ever exposes). -/
structure Row where
  id : Nat
  content : String
  metadata : List (String × String)
  embedding : List ℚ
deriving DecidableEq, Repr

/-- The chunk dictionary `{"id": ..., "content": ..., "metadata": ...}` that
`VectorStore.mmr_search` rebuilds for each selected document. -/
structure Chunk where
  id : Nat
  content : String
  metadata : List (String × String)
deriving DecidableEq, Repr

def Row.toChunk (r : Row) : Chunk := ⟨r.id, r.content, r.metadata⟩

/-- JSONB containment `metadata @> filter` for flat string objects: every
key/value pair of the filter is bound in the row metadata. -/
def metaContains (filter md : List (String × String)) : Bool :=
  filter.all (fun kv => md.lookup kv.1 == some kv.2)

/-- The optional `WHERE metadata @> %s` clause of both search queries. -/
def dbFilter (filter : Option (List (String × String))) (store : List Row) : List Row :=
  match filter with
  | none => store
  | some f => store.filter (fun r => metaContains f r.metadata)

/-- Ordering key of `ORDER BY embedding <=> %s::vector`: row `a` comes before
row `b` when its distance to the query is not larger. -/
def rowLE (dist : List ℚ → List ℚ → ℚ) (q : List ℚ) (a b : Row) : Prop :=
  dist a.embedding q ≤ dist b.embedding q

instance rowLE.decRel (dist : List ℚ → List ℚ → ℚ) (q : List ℚ) :
    DecidableRel (rowLE dist q) :=
  fun a b => inferInstanceAs (Decidable (_ ≤ _))

instance rowLE.total (dist : List ℚ → List ℚ → ℚ) (q : List ℚ) :
    IsTotal Row (rowLE dist q) :=
  ⟨fun a b => le_total _ _⟩

instance rowLE.trans (dist : List ℚ → List ℚ → ℚ) (q : List ℚ) :
    IsTrans Row (rowLE dist q) :=
  ⟨fun _ _ _ hab hbc => le_trans hab hbc⟩

/-- The SQL `SELECT ... [WHERE metadata @> f] ORDER BY embedding <=> q LIMIT n`
common to `similarity_search` and the candidate fetch of `mmr_search`. -/
def dbFetch (dist : List ℚ → List ℚ → ℚ) (store : List Row) (q : List ℚ)
    (lim : Nat) (filter : Option (List (String × String))) : List Row :=
  ((dbFilter filter store).insertionSort (rowLE dist q)).take lim

/-- The column `1 - (embedding <=> q)` returned as `similarity`. -/
def simScore (dist : List ℚ → List ℚ → ℚ) (q : List ℚ) (r : Row) : ℚ :=
  1 - dist r.embedding q

/-- Source `VectorStore.similarity_search`: top-`k` rows by cosine distance, each
paired with its similarity score. -/
def similarity_search (dist : List ℚ → List ℚ → ℚ) (store : List Row)
    (q : List ℚ) (k : Nat) (filter : Option (List (String × String))) :
    List (Row × ℚ) :=
  (dbFetch dist store q k filter).map (fun r => (r, simScore dist q r))

/-- The diversity proxy of `mmr_search`:
`similarity = 1.0 / (1.0 + len_diff / 100)` where
`len_diff = abs(len(candidate["content"]) - len(sel["content"]))`. -/
def lenSim (a b : String) : ℚ :=
  1 / (1 + (((a.length : ℤ) - (b.length : ℤ)).natAbs : ℚ) / 100)

/-- The inner loop of `mmr_search` computing `max_sim_to_selected`: a running
maximum over the selected rows, started at `0`. -/
def maxSimToSelected (selected : List Row) (c : Row) : ℚ :=
  selected.foldl (fun acc s => max acc (lenSim c.content s.content)) 0

/-- Source formula `mmr_score = lambda_mult * relevance - (1 - lambda_mult) * max_sim_to_selected`. -/
def mmrScore (lam : ℚ) (rel : Row → ℚ) (selected : List Row) (c : Row) : ℚ :=
  lam * rel c - (1 - lam) * maxSimToSelected selected c

/-- Python's `max(..., key=...)`: scan left to right, replace the current best
only on a strictly larger key, so the first maximum wins. -/
def argmaxFirst (f : Row → ℚ) : Row → List Row → Row
  | best, [] => best
  | best, x :: xs => if f x > f best then argmaxFirst f x xs else argmaxFirst f best xs

/-- The `while len(selected) < k and remaining:` loop of `mmr_search`.  Each
iteration appends the remaining candidate with the highest MMR score to
`selected` and removes it (`list.remove`: first occurrence) from `remaining`.
`fuel` bounds the recursion; the callers pass the length of `remaining`,
which is exact because each iteration removes one element. -/
def mmrLoop (k : Nat) (lam : ℚ) (rel : Row → ℚ) :
    Nat → List Row → List Row → List Row
  | fuel + 1, selected, r :: rs =>
    if selected.length < k then
      let best := argmaxFirst (mmrScore lam rel selected) r rs
      mmrLoop k lam rel fuel (selected ++ [best]) ((r :: rs).erase best)
    else selected
  | _, selected, _ => selected

/-- Source `VectorStore.mmr_search`: fetch the `fetch_k` nearest candidates, return
`[]` if there are none, otherwise seed the selection with `candidates[0]`,
run the greedy MMR loop, and return the first `k` selected rows as chunk
dictionaries paired with their original query similarity. -/
def mmr_search (dist : List ℚ → List ℚ → ℚ) (store : List Row) (q : List ℚ)
    (k : Nat) (lam : ℚ) (fetchK : Nat)
    (filter : Option (List (String × String))) : List (Chunk × ℚ) :=
  match dbFetch dist store q fetchK filter with
  | [] => []
  | c0 :: rest =>
    ((mmrLoop k lam (simScore dist q) rest.length [c0] rest).take k).map
      (fun r => (r.toChunk, simScore dist q r))

/-- Descending comparison used by `reranked.sort(key=lambda x: x[1], reverse=True)`. -/
def scoreGE {α : Type} (a b : α × ℚ) : Prop := b.2 ≤ a.2

instance scoreGE.decRel {α : Type} : DecidableRel (@scoreGE α) :=
  fun a b => inferInstanceAs (Decidable (_ ≤ _))

instance scoreGE.total {α : Type} : IsTotal (α × ℚ) scoreGE :=
  ⟨fun a b => le_total b.2 a.2⟩

instance scoreGE.trans {α : Type} : IsTrans (α × ℚ) scoreGE :=
  ⟨fun _ _ _ hab hbc => le_trans hbc hab⟩

/-- Source `Reranker.rerank`: re-score every candidate on the pair
`(query, doc["content"])` with the cross-encoder `score`, sort by the new
score descending (Python's sort is stable, so ties keep input order) and
return the first `top_k`. -/
def rerank (score : String → String → ℚ) (query : String)
    (documents : List (Chunk × ℚ)) (top_k : Nat) : List (Chunk × ℚ) :=
  match documents with
  | [] => []
  | _ =>
    ((documents.map (fun d => (d.1, score query d.1.content))).insertionSort
      scoreGE).take top_k

/-- Substring containment, Python's `needle in haystack` for strings. -/
def containsSub (needle : List Char) : List Char → Bool
  | [] => needle.isPrefixOf []
  | c :: cs => needle.isPrefixOf (c :: cs) || containsSub needle cs

/-- Source `greeting_keywords` of `RAGSystem._route_to_tool`. -/
def greeting_keywords : List (List Char) :=
  ["hello", "hi", "hey", "thank", "thanks", "good morning", "good evening"].map
    String.data

/-- Source `web_search_keywords` of `RAGSystem._route_to_tool`. -/
def web_search_keywords : List (List Char) :=
  ["weather", "temperature", "forecast", "news", "today", "current", "latest",
   "recent", "price", "stock", "market", "who is the current", "who won",
   "when did", "what happened"].map String.data

/-- Source `rag_keywords` of `RAGSystem._route_to_tool`. -/
def rag_keywords : List (List Char) :=
  ["document", "pdf", "according to", "in the", "from the", "docling",
   "paper"].map String.data

/-- Source `RAGSystem._route_to_tool`: lowercase the question, then test the three
keyword lists in order; the first category with a substring hit wins and the
default is `"rag"`.  Questions are modelled as their character lists. -/
def route_to_tool (question : List Char) : String :=
  let ql := question.map Char.toLower
  if greeting_keywords.any (fun kw => containsSub kw ql) then "direct_llm"
  else if web_search_keywords.any (fun kw => containsSub kw ql) then "web_search"
  else if rag_keywords.any (fun kw => containsSub kw ql) then "rag"
  else "rag"

/-- An OpenAI-style chat message `{"role": ..., "content": ...}`.  The same
shape is used for conversation-store entries (whose timestamp and metadata
fields are not modelled: no claim observes them). -/
structure Msg where
  role : String
  content : String
deriving DecidableEq, Repr

/-- State of the Redis conversation store: the `(conversation_id, message)`
pairs in `rpush` order. -/
abbrev ConvState := List (String × Msg)

/-- The messages stored under `conversation:{cid}`. -/
def conv_messages (conv : ConvState) (cid : String) : List Msg :=
  (conv.filter (fun e => e.1 == cid)).map (fun e => e.2)

/-- Source `ConversationManager.get_history`: `lrange(key, -limit, -1)`, the last
`limit` messages, oldest first (callers always pass a positive limit). -/
def get_history (conv : ConvState) (cid : String) (limit : Nat) : List Msg :=
  let msgs := conv_messages conv cid
  msgs.drop (msgs.length - limit)

/-- Source `ConversationManager.format_for_llm`. -/
def format_for_llm (conv : ConvState) (cid : String) (limit : Nat)
    (include_system : Bool) : List Msg :=
  (if include_system then
    [⟨"system", "You are a helpful AI assistant with access to documents via RAG."⟩]
   else []) ++ get_history conv cid limit

/-- Source `ConversationManager.add_message` (timestamp and metadata dropped). -/
def add_message (conv : ConvState) (cid role content : String) : ConvState :=
  conv ++ [(cid, ⟨role, content⟩)]

/-- Python's `if conversation_id and self.conversation_manager:` guard: the
id must be present and non-empty (empty strings are falsy) and a manager must
be configured.  The manager together with its state is `mgr : Option ConvState`. -/
def convActive (mgr : Option ConvState) (cid : Option String) : Bool :=
  match cid, mgr with
  | some c, some _ => !(c == "")
  | _, _ => false

/-- Persist the question/answer pair at the end of a successful pipeline:
`add_message(cid, "user", question)` then `add_message(cid, "assistant", answer)`;
a no-op when the conversation guard is off. -/
def persistQA (mgr : Option ConvState) (cid : Option String)
    (question answer : String) : Option ConvState :=
  match cid, mgr with
  | some c, some conv =>
    if c == "" then mgr
    else some (add_message (add_message conv c "user" question) c "assistant" answer)
  | _, _ => mgr

/-- A source entry of a query result.  The rag path fills `content`,
`filename`, `sec` (the `section` key) and `score`; the web path additionally
fills `link`. -/
structure Source where
  content : String
  filename : Option String
  sec : Option String
  score : ℚ
  link : Option String
deriving DecidableEq, Repr

/-- The result dictionary of `RAGSystem.query`.  `retrieval_method` and
`reranked` are only present on the rag path, hence optional. -/
structure QueryResult where
  answer : String
  sources : List Source
  tool_used : String
  retrieval_method : Option String
  reranked : Option Bool
  num_tokens : Nat
deriving DecidableEq, Repr

/-- A web search result `{title, snippet, link}` (`web_search.py`). -/
structure SearchResult where
  title : String
  snippet : String
  link : String
deriving DecidableEq, Repr

/-- Render a score the way `f"{score:.2f}"` does, with exact half-up rounding
standing in for binary floating-point rounding (no claim observes this text). -/
def fmt2 (q : ℚ) : String :=
  let scaled : ℤ := round (q * 100)
  let n := scaled.natAbs
  (if scaled < 0 then "-" else "") ++ Nat.repr (n / 100) ++ "." ++
    (if n % 100 < 10 then "0" else "") ++ Nat.repr (n % 100)

/-- The `[Source i: filename - section (relevance: score)]` header built by
`RAGSystem._format_context` (missing filename renders as `Unknown`, a missing
or empty section is skipped). -/
def source_info (i : Nat) (c : Chunk) (score : ℚ) : String :=
  let base := "[Source " ++ Nat.repr i ++ ": " ++
    ((c.metadata.lookup "filename").getD "Unknown")
  let base :=
    match c.metadata.lookup "section" with
    | some s => if s == "" then base else base ++ " - " ++ s
    | none => base
  base ++ " (relevance: " ++ fmt2 score ++ ")]"

/-- Source `RAGSystem._format_context`: one block per retrieved chunk, joined by
newlines, numbered from 1. -/
def format_context (results : List (Chunk × ℚ)) : String :=
  String.intercalate "\n"
    (results.enum.map
      (fun p => source_info (p.1 + 1) p.2.1 p.2.2 ++ "\n" ++ p.2.1.content ++ "\n"))

/-- Source `filter_metadata = {"filename": filter_document} if filter_document else None`
(an empty filename is falsy and disables the filter). -/
def mkFilterMeta (filter_document : Option String) :
    Option (List (String × String)) :=
  match filter_document with
  | some f => if f == "" then none else some [("filename", f)]
  | none => none

/-- Step 2 of `RAGSystem._answer_with_rag`: MMR retrieval with
`lambda_mult=0.5, fetch_k=k*4` when requested, otherwise similarity search
fetching `k*2` candidates when reranking is requested and `k` otherwise. -/
def rag_retrieve (dist : List ℚ → List ℚ → ℚ) (store : List Row) (qemb : List ℚ)
    (k : Nat) (use_mmr use_rerank : Bool)
    (filter_metadata : Option (List (String × String))) : List (Chunk × ℚ) :=
  if use_mmr then
    mmr_search dist store qemb k (1 / 2) (k * 4) filter_metadata
  else
    (similarity_search dist store qemb (if use_rerank then k * 2 else k)
      filter_metadata).map (fun p => (p.1.toChunk, p.2))

/-- Steps 2–3 of `RAGSystem._answer_with_rag`: retrieval followed by the
guarded rerank `if use_rerank and self.reranker and results:`.
`crossScore` is the cross-encoder when a reranker is configured. -/
def rag_results (dist : List ℚ → List ℚ → ℚ) (store : List Row) (qemb : List ℚ)
    (crossScore : Option (String → String → ℚ)) (question : String) (k : Nat)
    (use_mmr use_rerank : Bool) (filter_document : Option String) :
    List (Chunk × ℚ) :=
  let results := rag_retrieve dist store qemb k use_mmr use_rerank
    (mkFilterMeta filter_document)
  match use_rerank, crossScore with
  | true, some cs => if results.isEmpty then results else rerank cs question results k
  | _, _ => results

/-- The early-return result of `_answer_with_rag` when retrieval (after the
optional rerank) produced nothing. -/
def rag_canned : QueryResult :=
  ⟨"I couldn't find relevant information in the documents.", [], "rag",
    some "similarity", some false, 0⟩

/-- The user prompt of the rag path. -/
def rag_user_prompt (question : String) (results : List (Chunk × ℚ)) : String :=
  "Context from documents:\n" ++ format_context results ++ "\n\nQuestion: " ++
    question ++
    "\n\nAnswer based on the context above. If the context doesn't contain relevant information, say so."

/-- Step 5 of `_answer_with_rag`: optional short history (limit 2, no system
message), a system prompt (with eco suffix) inserted in front, and the user
prompt appended. -/
def rag_messages (mgr : Option ConvState) (cid : Option String)
    (question : String) (eco : Bool) (results : List (Chunk × ℚ)) : List Msg :=
  let hist :=
    match cid, mgr with
    | some c, some conv => if c == "" then [] else format_for_llm conv c 2 false
    | _, _ => []
  let sp := "You are a helpful AI assistant. Answer based on the provided context." ++
    (if eco then " Be concise and direct." else "")
  (⟨"system", sp⟩ :: hist) ++ [⟨"user", rag_user_prompt question results⟩]

/-- Step 7 of `_answer_with_rag`: sources with a 200-character content
preview, filename, section and the (possibly reranked) score. -/
def rag_sources (results : List (Chunk × ℚ)) : List Source :=
  results.map (fun p =>
    ⟨p.1.content.take 200 ++ "...", p.1.metadata.lookup "filename",
      p.1.metadata.lookup "section", p.2, none⟩)

/-- Source `RAGSystem._answer_with_rag`.  `llm` is the chat-completion provider
returning the answer text and `usage.total_tokens`; `embed` the embedding
provider.  Returns the result dictionary and the conversation store after the
call. -/
def answer_with_rag (llm : List Msg → String × Nat) (embed : String → List ℚ)
    (dist : List ℚ → List ℚ → ℚ) (store : List Row)
    (crossScore : Option (String → String → ℚ)) (mgr : Option ConvState)
    (cid : Option String) (question : String) (k : Nat)
    (use_mmr use_rerank eco : Bool) (filter_document : Option String) :
    QueryResult × Option ConvState :=
  let results := rag_results dist store (embed question) crossScore question k
    use_mmr use_rerank filter_document
  if results.isEmpty then (rag_canned, mgr)
  else
    let out := llm (rag_messages mgr cid question eco results)
    ({answer := out.1, sources := rag_sources results, tool_used := "rag",
      retrieval_method := some (if use_mmr then "mmr" else "similarity"),
      reranked := some (use_rerank && crossScore.isSome),
      num_tokens := out.2}, persistQA mgr cid question out.1)

/-- The early-return result of `_answer_with_web_search` when the provider
returned no results. -/
def web_canned : QueryResult :=
  ⟨"I couldn't find relevant information on the web.", [], "web_search",
    none, none, 0⟩

/-- Source `WebSearchTool.format_results_for_context`. -/
def web_context (results : List SearchResult) : String :=
  match results with
  | [] => "No web search results found."
  | _ =>
    results.enum.foldl
      (fun acc p =>
        acc ++ Nat.repr (p.1 + 1) ++ ". " ++ p.2.title ++ "\n   " ++
          p.2.snippet ++ "\n   Source: " ++ p.2.link ++ "\n\n")
      "Web search results:\n\n"

/-- Step 3 of `_answer_with_web_search`: message list for the LLM call. -/
def web_messages (mgr : Option ConvState) (cid : Option String)
    (question : String) (eco : Bool) (results : List SearchResult) : List Msg :=
  let hist :=
    match cid, mgr with
    | some c, some conv => if c == "" then [] else format_for_llm conv c 2 false
    | _, _ => []
  let sp := "You are a helpful AI assistant. Answer based on the web search results provided." ++
    (if eco then " Be concise and direct." else "")
  (⟨"system", sp⟩ :: hist) ++
    [⟨"user", web_context results ++ "\n\nQuestion: " ++ question ++
      "\n\nAnswer based on the web search results above."⟩]

/-- Step 5 of `_answer_with_web_search`: sources with decreasing pseudo-scores
`1.0 - i * 0.1`. -/
def web_sources (results : List SearchResult) : List Source :=
  results.enum.map (fun p =>
    ⟨p.2.snippet.take 200 ++ "...", some "Web Search", some p.2.title,
      1 - (p.1 : ℚ) * (1 / 10), some p.2.link⟩)

/-- Source `RAGSystem._answer_with_web_search`.  `search_results` is the provider's
response to `search(question, max_results=3)`. -/
def answer_with_web_search (llm : List Msg → String × Nat)
    (search_results : List SearchResult) (mgr : Option ConvState)
    (cid : Option String) (question : String) (eco : Bool) :
    QueryResult × Option ConvState :=
  match search_results with
  | [] => (web_canned, mgr)
  | _ =>
    let out := llm (web_messages mgr cid question eco search_results)
    ({answer := out.1, sources := web_sources search_results,
      tool_used := "web_search", retrieval_method := none, reranked := none,
      num_tokens := out.2}, persistQA mgr cid question out.1)

/-- Message list of `RAGSystem._answer_directly`: history with system message
(limit 3) when the conversation guard is on, else a default system message;
eco mode appends to the first message's content; the question is appended. -/
def direct_messages (mgr : Option ConvState) (cid : Option String)
    (question : String) (eco : Bool) : List Msg :=
  let base :=
    match cid, mgr with
    | some c, some conv =>
      if c == "" then [⟨"system", "You are a helpful AI assistant."⟩]
      else format_for_llm conv c 3 true
    | _, _ => [⟨"system", "You are a helpful AI assistant."⟩]
  let base :=
    if eco then
      match base with
      | [] => []
      | m :: rest =>
        ⟨m.role, m.content ++ " Be concise and direct in your answers."⟩ :: rest
    else base
  base ++ [⟨"user", question⟩]

/-- Source `RAGSystem._answer_directly`. -/
def answer_directly (llm : List Msg → String × Nat) (mgr : Option ConvState)
    (cid : Option String) (question : String) (eco : Bool) :
    QueryResult × Option ConvState :=
  let out := llm (direct_messages mgr cid question eco)
  ({answer := out.1, sources := [], tool_used := "direct_llm",
    retrieval_method := none, reranked := none, num_tokens := out.2},
    persistQA mgr cid question out.1)

/-! ### Specification-side definitions

These follow the words of the specification (not the source) and are compared
with the source-side definitions in the refinement theorems below. -/

/-- Spec side: `maxSimilarityToSelected` is *the maximum over already-selected
items* of the diversity proxy — a genuine maximum of a non-empty collection
(seeded with the first selected item, not with `0`). -/
def maxProxyOver (c : Row) : List Row → ℚ
  | [] => 0
  | s :: ss =>
    ss.foldl (fun a s2 => max a (lenSim c.content s2.content))
      (lenSim c.content s.content)

/-- Spec side: `mmrScore = lambda * relevance − (1 − lambda) * maxSimilarityToSelected`. -/
def spec_mmr_score (lam : ℚ) (rel : Row → ℚ) (selected : List Row) (c : Row) : ℚ :=
  lam * rel c - (1 - lam) * maxProxyOver c selected

/-- Spec side: repeat until `k` items are selected or candidates are
exhausted; each round selects the unselected candidate with the highest
`mmrScore`, first encountered winning ties. -/
def spec_mmr_select (k : Nat) (lam : ℚ) (rel : Row → ℚ) :
    Nat → List Row → List Row → List Row
  | fuel + 1, selected, r :: rs =>
    if selected.length < k then
      let best := argmaxFirst (spec_mmr_score lam rel selected) r rs
      spec_mmr_select k lam rel fuel (selected ++ [best]) ((r :: rs).erase best)
    else selected
  | _, selected, _ => selected

/-- Spec side: greedy MMR selection over a non-empty candidate fetch — start
with the single most similar candidate (first encountered on ties), then run
the greedy rounds on the rest. -/
def spec_mmr_greedy (k : Nat) (lam : ℚ) (rel : Row → ℚ)
    (candidates : List Row) : List Row :=
  match candidates with
  | [] => []
  | c :: cs =>
    let first := argmaxFirst rel c cs
    spec_mmr_select k lam rel cs.length [first] ((c :: cs).erase first)

/-- Spec side for the router: the ordered keyword categories with their
route decisions. -/
def router_categories : List (List (List Char) × String) :=
  [(greeting_keywords, "direct_llm"),
   (web_search_keywords, "web_search"),
   (rag_keywords, "rag")]

/-- Spec side: classify by returning the decision of the *first* category
containing a keyword of the lowercased question, defaulting to `"rag"`. -/
def classifySpec (question : List Char) : String :=
  let ql := question.map Char.toLower
  match router_categories.find? (fun cat => cat.1.any (fun kw => containsSub kw ql)) with
  | some cat => cat.2
  | none => "rag"

/-! ### Concrete fixtures used by witnesses and counterexamples -/

/-- A concrete stand-in for the cosine-distance operator: the first coordinate
of the row embedding (keeps every comparison between literals). -/
def wDist (e : List ℚ) (_q : List ℚ) : ℚ := e.headD 0

/-- Two-row store with distinct ids and distances 0 and 1. -/
def wStore : List Row :=
  [⟨1, "alpha", [("filename", "a.pdf")], [0]⟩,
   ⟨2, "bravo beta", [("filename", "b.pdf")], [1]⟩]

/-- Four-row store (ids 1–4, distances 0,1,2,3). -/
def wStore4 : List Row :=
  [⟨1, "one", [], [0]⟩, ⟨2, "two", [], [1]⟩,
   ⟨3, "three", [], [2]⟩, ⟨4, "four", [], [3]⟩]

/-- Store whose two rows share one embedding: their cosine distances to any
query coincide, so similarity scores tie. -/
def cexStore : List Row :=
  [⟨1, "left", [], [1]⟩, ⟨2, "right", [], [1]⟩]

/-- A constant distance function (what any distance yields on identical
embeddings). -/
def cexDist (_e _q : List ℚ) : ℚ := 0

/-- A cross-encoder returning the same score for every pair (what any
cross-encoder yields on identical contents). -/
def cexScore (_query _content : String) : ℚ := 0

/-- Two candidates with identical content: any cross-encoder scores them
equally. -/
def cexDocs : List (Chunk × ℚ) :=
  [(⟨1, "same text", []⟩, 5), (⟨2, "same text", []⟩, 3)]

/-- Single-row store whose metadata matches the filter `{"filename": "a.pdf"}`. -/
def wStoreF : List Row := [⟨7, "filtered content", [("filename", "a.pdf")], [0]⟩]

def wFilter : List (String × String) := [("filename", "a.pdf")]

/-- A concrete LLM provider for witnesses. -/
def wLLM (_messages : List Msg) : String × Nat := ("model answer", 7)

/-- A concrete embedding provider for witnesses. -/
def wEmbed (_text : String) : List ℚ := []

/-! ### Helper lemmas -/

lemma argmaxFirst_mem (f : Row → ℚ) : ∀ (b : Row) (xs : List Row),
    argmaxFirst f b xs ∈ b :: xs := by
  intro b xs
  induction xs generalizing b with
  | nil => simp [argmaxFirst]
  | cons x xs ih =>
    by_cases h : f x > f b
    · have := ih x
      simp only [List.mem_cons] at this ⊢
      simp only [argmaxFirst, if_pos h]
      tauto
    · have := ih b
      simp only [List.mem_cons] at this ⊢
      simp only [argmaxFirst, if_neg h]
      tauto

lemma argmaxFirst_eq_head (f : Row → ℚ) (b : Row) (xs : List Row)
    (h : ∀ x ∈ xs, f x ≤ f b) : argmaxFirst f b xs = b := by
  induction xs with
  | nil => rfl
  | cons x xs ih =>
    have hx : ¬ f x > f b := not_lt.mpr (h x (by simp))
    simpa [argmaxFirst, hx] using ih (fun y hy => h y (by simp [hy]))

lemma argmaxFirst_congr (f g : Row → ℚ) : ∀ (b : Row) (xs : List Row),
    (∀ x ∈ b :: xs, f x = g x) → argmaxFirst f b xs = argmaxFirst g b xs := by
  intro b xs
  induction xs generalizing b with
  | nil => intro _; rfl
  | cons x xs ih =>
    intro h
    have hb : f b = g b := h b (by simp)
    have hx : f x = g x := h x (by simp)
    by_cases hgt : f x > f b
    · have : g x > g b := by rw [← hb, ← hx]; exact hgt
      simp only [argmaxFirst, if_pos hgt, if_pos this]
      exact ih x (fun y hy => by
        rcases List.mem_cons.mp hy with rfl | hy
        · exact hx
        · exact h y (by simp [hy]))
    · have : ¬ g x > g b := by rw [← hb, ← hx]; exact hgt
      simp only [argmaxFirst, if_neg hgt, if_neg this]
      exact ih b (fun y hy => by
        rcases List.mem_cons.mp hy with rfl | hy
        · exact hb
        · exact h y (by simp [hy]))

lemma lenSim_nonneg (a b : String) : 0 ≤ lenSim a b := by
  unfold lenSim
  have h1 : (0:ℚ) ≤ (((a.length : ℤ) - (b.length : ℤ)).natAbs : ℚ) := by positivity
  positivity

lemma maxSimToSelected_eq_maxProxyOver (s : Row) (ss : List Row) (c : Row) :
    maxSimToSelected (s :: ss) c = maxProxyOver c (s :: ss) := by
  unfold maxSimToSelected maxProxyOver
  simp only [List.foldl_cons]
  rw [max_eq_right (lenSim_nonneg c.content s.content)]

lemma mmrScore_eq_spec (lam : ℚ) (rel : Row → ℚ) (s : Row) (ss : List Row)
    (c : Row) : mmrScore lam rel (s :: ss) c = spec_mmr_score lam rel (s :: ss) c := by
  unfold mmrScore spec_mmr_score
  rw [maxSimToSelected_eq_maxProxyOver]

lemma mmrLoop_eq_spec_select (k : Nat) (lam : ℚ) (rel : Row → ℚ) :
    ∀ (fuel : Nat) (rem sel : List Row), sel ≠ [] →
      mmrLoop k lam rel fuel sel rem = spec_mmr_select k lam rel fuel sel rem := by
  intro fuel
  induction fuel with
  | zero => intro rem sel _; cases rem <;> rfl
  | succ f ih =>
    intro rem sel hsel
    cases rem with
    | nil => rfl
    | cons r rs =>
      obtain ⟨s, ss, rfl⟩ : ∃ s ss, sel = s :: ss := by
        cases sel with
        | nil => exact absurd rfl hsel
        | cons s ss => exact ⟨s, ss, rfl⟩
      by_cases hlen : (s :: ss).length < k
      · have hargs : argmaxFirst (mmrScore lam rel (s :: ss)) r rs
            = argmaxFirst (spec_mmr_score lam rel (s :: ss)) r rs :=
          argmaxFirst_congr _ _ r rs (fun x _ => mmrScore_eq_spec lam rel s ss x)
        simp only [mmrLoop, spec_mmr_select, if_pos hlen, hargs]
        exact ih _ _ (by simp)
      · simp only [mmrLoop, spec_mmr_select, if_neg hlen]

lemma mmrLoop_exists_perm (k : Nat) (lam : ℚ) (rel : Row → ℚ) :
    ∀ (fuel : Nat) (rem sel : List Row),
      ∃ rem', (mmrLoop k lam rel fuel sel rem ++ rem').Perm (sel ++ rem) := by
  intro fuel
  induction fuel with
  | zero => intro rem sel; exact ⟨rem, by cases rem <;> simp [mmrLoop]⟩
  | succ f ih =>
    intro rem sel
    cases rem with
    | nil => exact ⟨[], by simp [mmrLoop]⟩
    | cons r rs =>
      by_cases hlen : sel.length < k
      · obtain ⟨rem', hp⟩ := ih ((r :: rs).erase
          (argmaxFirst (mmrScore lam rel sel) r rs))
          (sel ++ [argmaxFirst (mmrScore lam rel sel) r rs])
        refine ⟨rem', ?_⟩
        simp only [mmrLoop, if_pos hlen]
        refine hp.trans ?_
        rw [List.append_assoc]
        refine List.Perm.append_left sel ?_
        simpa using (List.perm_cons_erase (argmaxFirst_mem
          (mmrScore lam rel sel) r rs)).symm
      · exact ⟨r :: rs, by simp [mmrLoop, if_neg hlen]⟩

lemma mmrLoop_length_le (k : Nat) (lam : ℚ) (rel : Row → ℚ) :
    ∀ (fuel : Nat) (rem sel : List Row), sel.length ≤ k →
      (mmrLoop k lam rel fuel sel rem).length ≤ k := by
  intro fuel
  induction fuel with
  | zero => intro rem sel h; cases rem <;> simpa [mmrLoop] using h
  | succ f ih =>
    intro rem sel h
    cases rem with
    | nil => simpa [mmrLoop] using h
    | cons r rs =>
      by_cases hlen : sel.length < k
      · simp only [mmrLoop, if_pos hlen]
        exact ih _ _ (by simpa using hlen)
      · simpa [mmrLoop, if_neg hlen] using h

lemma mmrScore_one (rel : Row → ℚ) (sel : List Row) (c : Row) :
    mmrScore 1 rel sel c = rel c := by
  unfold mmrScore; ring

lemma mmrLoop_one_sorted (k : Nat) (rel : Row → ℚ) :
    ∀ (rem : List Row) (sel : List Row) (fuel : Nat), rem.length ≤ fuel →
      rem.Pairwise (fun a b => rel b ≤ rel a) →
      mmrLoop k 1 rel fuel sel rem = sel ++ rem.take (k - sel.length) := by
  intro rem
  induction rem with
  | nil => intro sel fuel _ _; cases fuel <;> simp [mmrLoop]
  | cons r rs ih =>
    intro sel fuel hfuel hsorted
    cases fuel with
    | zero => simp at hfuel
    | succ f =>
      by_cases hlen : sel.length < k
      · have hhead : ∀ x ∈ rs, rel x ≤ rel r := (List.pairwise_cons.mp hsorted).1
        have harg : argmaxFirst (mmrScore 1 rel sel) r rs = r := by
          rw [argmaxFirst_congr _ rel r rs (fun x _ => mmrScore_one rel sel x)]
          exact argmaxFirst_eq_head rel r rs hhead
        simp only [mmrLoop, if_pos hlen, harg, List.erase_cons_head]
        rw [ih (sel ++ [r]) f (by simpa using hfuel) (List.pairwise_cons.mp hsorted).2]
        have hk : k - sel.length = (k - (sel.length + 1)) + 1 := by omega
        simp [hk, List.append_assoc]
      · have hk : k - sel.length = 0 := by omega
        simp [mmrLoop, if_neg hlen, hk]

lemma dbFilter_sublist (filter : Option (List (String × String)))
    (store : List Row) : (dbFilter filter store).Sublist store := by
  cases filter with
  | none => exact List.Sublist.refl store
  | some f => exact List.filter_sublist store

lemma dbFetch_sorted (dist : List ℚ → List ℚ → ℚ) (store : List Row)
    (q : List ℚ) (lim : Nat) (filter : Option (List (String × String))) :
    (dbFetch dist store q lim filter).Pairwise (rowLE dist q) :=
  List.Pairwise.sublist (List.take_sublist _ _)
    (List.sorted_insertionSort (rowLE dist q) (dbFilter filter store))

lemma dbFetch_subset (dist : List ℚ → List ℚ → ℚ) (store : List Row)
    (q : List ℚ) (lim : Nat) (filter : Option (List (String × String))) :
    dbFetch dist store q lim filter ⊆ store := by
  intro r hr
  have h1 : r ∈ (dbFilter filter store).insertionSort (rowLE dist q) :=
    (List.take_sublist _ _).subset hr
  have h2 : r ∈ dbFilter filter store :=
    (List.perm_insertionSort (rowLE dist q) (dbFilter filter store)).subset h1
  exact (dbFilter_sublist filter store).subset h2

lemma dbFetch_filter_matches (dist : List ℚ → List ℚ → ℚ) (store : List Row)
    (q : List ℚ) (lim : Nat) (f : List (String × String)) :
    ∀ r ∈ dbFetch dist store q lim (some f), metaContains f r.metadata = true := by
  intro r hr
  have h1 : r ∈ (dbFilter (some f) store).insertionSort (rowLE dist q) :=
    (List.take_sublist _ _).subset hr
  have h2 : r ∈ dbFilter (some f) store :=
    (List.perm_insertionSort (rowLE dist q) (dbFilter (some f) store)).subset h1
  simp only [dbFilter] at h2
  exact (List.mem_filter.mp h2).2

lemma dbFetch_length (dist : List ℚ → List ℚ → ℚ) (store : List Row)
    (q : List ℚ) (lim : Nat) (filter : Option (List (String × String))) :
    (dbFetch dist store q lim filter).length
      = min lim (dbFilter filter store).length := by
  simp [dbFetch, (List.perm_insertionSort (rowLE dist q)
    (dbFilter filter store)).length_eq]

lemma dbFetch_map_id_nodup (dist : List ℚ → List ℚ → ℚ) (store : List Row)
    (q : List ℚ) (lim : Nat) (filter : Option (List (String × String)))
    (h : (store.map Row.id).Nodup) :
    ((dbFetch dist store q lim filter).map Row.id).Nodup := by
  have h1 : ((dbFilter filter store).map Row.id).Nodup :=
    List.Nodup.sublist (List.Sublist.map Row.id (dbFilter_sublist filter store)) h
  have h2 : (((dbFilter filter store).insertionSort (rowLE dist q)).map Row.id).Nodup :=
    ((List.perm_insertionSort (rowLE dist q) (dbFilter filter store)).map
      Row.id).symm.nodup h1
  exact List.Nodup.sublist
    (List.Sublist.map Row.id (List.take_sublist _ _)) h2

lemma similarity_search_score (dist : List ℚ → List ℚ → ℚ) (store : List Row)
    (q : List ℚ) (k : Nat) (filter : Option (List (String × String))) :
    ∀ p ∈ similarity_search dist store q k filter,
      p.2 = 1 - dist p.1.embedding q := by
  intro p hp
  obtain ⟨r, _, rfl⟩ := List.mem_map.mp hp
  rfl

lemma similarity_search_scores_antitone (dist : List ℚ → List ℚ → ℚ)
    (store : List Row) (q : List ℚ) (k : Nat)
    (filter : Option (List (String × String))) :
    ((similarity_search dist store q k filter).map Prod.snd).Pairwise
      (fun a b => b ≤ a) := by
  unfold similarity_search
  rw [List.map_map]
  refine List.Pairwise.map (fun r => (Prod.snd ∘ fun r => (r, simScore dist q r)) r)
    (fun a b hab => ?_) (dbFetch_sorted dist store q k filter)
  simpa [simScore] using sub_le_sub_left hab 1

lemma similarity_search_length (dist : List ℚ → List ℚ → ℚ) (store : List Row)
    (q : List ℚ) (k : Nat) (filter : Option (List (String × String))) :
    (similarity_search dist store q k filter).length
      = min k (dbFilter filter store).length := by
  simp [similarity_search, dbFetch_length]

lemma rerank_perm_take (score : String → String → ℚ) (query : String)
    (documents : List (Chunk × ℚ)) (top_k : Nat) (h : documents ≠ []) :
    rerank score query documents top_k =
      ((documents.map (fun d => (d.1, score query d.1.content))).insertionSort
        scoreGE).take top_k := by
  cases documents with
  | nil => exact absurd rfl h
  | cons d ds => rfl

lemma rerank_length (score : String → String → ℚ) (query : String)
    (documents : List (Chunk × ℚ)) (top_k : Nat) :
    (rerank score query documents top_k).length = min top_k documents.length := by
  cases documents with
  | nil => simp [rerank]
  | cons d ds =>
    rw [rerank_perm_take score query (d :: ds) top_k (by simp),
      List.length_take, (List.perm_insertionSort scoreGE _).length_eq,
      List.length_map]

lemma rerank_subperm (score : String → String → ℚ) (query : String)
    (documents : List (Chunk × ℚ)) (top_k : Nat) :
    (rerank score query documents top_k).Subperm
      (documents.map (fun d => (d.1, score query d.1.content))) := by
  cases documents with
  | nil => simp [rerank]
  | cons d ds =>
    rw [rerank_perm_take score query (d :: ds) top_k (by simp)]
    exact (List.take_sublist _ _).subperm.trans
      (List.perm_insertionSort scoreGE _).subperm

lemma rerank_scores (score : String → String → ℚ) (query : String)
    (documents : List (Chunk × ℚ)) (top_k : Nat) :
    ∀ p ∈ rerank score query documents top_k,
      p.2 = score query p.1.content := by
  intro p hp
  have hmem := (rerank_subperm score query documents top_k).subset hp
  obtain ⟨d, _, rfl⟩ := List.mem_map.mp hmem
  rfl

lemma rerank_scores_antitone (score : String → String → ℚ) (query : String)
    (documents : List (Chunk × ℚ)) (top_k : Nat) :
    ((rerank score query documents top_k).map Prod.snd).Pairwise
      (fun a b => b ≤ a) := by
  cases documents with
  | nil => simp [rerank]
  | cons d ds =>
    rw [rerank_perm_take score query (d :: ds) top_k (by simp)]
    have hs : ((d :: ds).map (fun d => (d.1, score query d.1.content))).insertionSort
        scoreGE |>.Pairwise scoreGE :=
      List.sorted_insertionSort scoreGE _
    exact List.Pairwise.map Prod.snd (fun a b hab => hab)
      (List.Pairwise.sublist (List.take_sublist _ _) hs)

lemma mmr_search_length_le (dist : List ℚ → List ℚ → ℚ) (store : List Row)
    (q : List ℚ) (k : Nat) (lam : ℚ) (fetchK : Nat)
    (filter : Option (List (String × String))) :
    (mmr_search dist store q k lam fetchK filter).length ≤ k := by
  unfold mmr_search
  cases dbFetch dist store q fetchK filter with
  | nil => simp
  | cons c0 rest => simp

lemma nodup_map_of_subperm {α β : Type} (f : α → β) {l₁ l₂ : List α}
    (h : l₁.Subperm l₂) (hn : (l₂.map f).Nodup) : (l₁.map f).Nodup := by
  obtain ⟨l, hperm, hsub⟩ := h
  exact ((hperm.map f).nodup_iff).mp (List.Nodup.sublist (hsub.map f) hn)

lemma rel_antitone_of_sorted (dist : List ℚ → List ℚ → ℚ) (q : List ℚ)
    {l : List Row} (h : l.Pairwise (rowLE dist q)) :
    l.Pairwise (fun a b => simScore dist q b ≤ simScore dist q a) :=
  h.imp (fun hab => by simpa [simScore] using sub_le_sub_left hab 1)

/-! ### Claim theorems -/

/-- Claim C2: The router classifies by checking the ordered keyword categories
with case-insensitive substring containment and returns the decision of the
first matching category, `rag` by default; greetings take precedence over the
real-time and document categories.  The four example classifications of the
specification hold. -/
theorem route_to_tool_first_matching_category :
    (∀ q : List Char, route_to_tool q = classifySpec q)
    ∧ route_to_tool "hello there".data = "direct_llm"
    ∧ route_to_tool "what's the weather today".data = "web_search"
    ∧ route_to_tool "according to the document, what is X".data = "rag"
    ∧ route_to_tool "random unrelated question".data = "rag" := by
  refine ⟨fun q => ?_, by decide, by decide, by decide, by decide⟩
  unfold route_to_tool classifySpec router_categories
  by_cases h1 : greeting_keywords.any (fun kw => containsSub kw (q.map Char.toLower)) = true <;>
    by_cases h2 : web_search_keywords.any (fun kw => containsSub kw (q.map Char.toLower)) = true <;>
      by_cases h3 : rag_keywords.any (fun kw => containsSub kw (q.map Char.toLower)) = true <;>
        simp [List.find?, h1, h2, h3]

/-- Claim C5: With `lambda_mult = 1` the diversity penalty vanishes and
`mmr_search` returns exactly `similarity_search` with the same `k` restricted
to the first `fetch_k` candidates (chunk projection of the same rows, with
the same scores, in the same order). -/
theorem mmr_search_lambda_one_degenerates (dist : List ℚ → List ℚ → ℚ)
    (store : List Row) (q : List ℚ) (k fetchK : Nat)
    (filter : Option (List (String × String))) :
    mmr_search dist store q k 1 fetchK filter
      = ((similarity_search dist store q k filter).take fetchK).map
          (fun p => (p.1.toChunk, p.2)) := by
  have hsorted := dbFetch_sorted dist store q fetchK filter
  unfold mmr_search
  cases hC : dbFetch dist store q fetchK filter with
  | nil =>
    have h0 : ((dbFilter filter store).insertionSort (rowLE dist q)).take fetchK = [] := hC
    rcases List.take_eq_nil_iff.mp h0 with h | h
    · simp [similarity_search, h]
    · simp [similarity_search, dbFetch, h]
  | cons c0 rest =>
    rw [hC] at hsorted
    have hpair := rel_antitone_of_sorted dist q hsorted
    dsimp only
    rw [mmrLoop_one_sorted k (simScore dist q) rest [c0] rest.length le_rfl
      (List.pairwise_cons.mp hpair).2]
    have hlist : ((c0 :: rest.take (k - 1)).take k)
        = (dbFetch dist store q k filter).take fetchK := by
      cases k with
      | zero => simp [dbFetch]
      | succ k' =>
        have h1 : (c0 :: rest.take (k' + 1 - 1)).take (k' + 1)
            = (c0 :: rest).take (k' + 1) := by
          simp [List.take_take]
        rw [h1, ← hC]
        show (((dbFilter filter store).insertionSort (rowLE dist q)).take
            fetchK).take (k' + 1) = _
        rw [List.take_take, show dbFetch dist store q (k' + 1) filter
          = ((dbFilter filter store).insertionSort (rowLE dist q)).take (k' + 1) from rfl,
          List.take_take, min_comm]
    calc ((c0 :: rest.take (k - 1)).take k).map
          (fun r => (r.toChunk, simScore dist q r))
        = ((dbFetch dist store q k filter).take fetchK).map
            (fun r => (r.toChunk, simScore dist q r)) := by rw [hlist]
      _ = _ := by
          unfold similarity_search
          rw [← List.map_take, List.map_map]
          rfl

/-- Claim C1: On a non-empty candidate fetch (and a positive `k`), `mmr_search`
performs exactly the greedy selection described by the specification: it
starts with the single most similar candidate, then repeatedly — until `k`
items are selected or candidates are exhausted — computes for every
unselected candidate `mmrScore = lambda * relevance − (1 − lambda) *
maxSimilarityToSelected` (relevance being the query similarity,
`maxSimilarityToSelected` the maximum over the selected items of the
diversity proxy `1 / (1 + |lenDiff| / 100)`), and selects the candidate with
the highest score, first encountered winning ties. -/
theorem mmr_search_follows_greedy_spec (dist : List ℚ → List ℚ → ℚ)
    (store : List Row) (q : List ℚ) (k : Nat) (lam : ℚ) (fetchK : Nat)
    (filter : Option (List (String × String)))
    (hne : dbFetch dist store q fetchK filter ≠ []) (hk : 1 ≤ k) :
    mmr_search dist store q k lam fetchK filter
      = (spec_mmr_greedy k lam (simScore dist q)
          (dbFetch dist store q fetchK filter)).map
          (fun r => (r.toChunk, simScore dist q r)) := by
  have hsorted := dbFetch_sorted dist store q fetchK filter
  unfold mmr_search spec_mmr_greedy
  cases hC : dbFetch dist store q fetchK filter with
  | nil => exact absurd hC hne
  | cons c0 rest =>
    rw [hC] at hsorted
    have hpair := rel_antitone_of_sorted dist q hsorted
    have hfirst : argmaxFirst (simScore dist q) c0 rest = c0 :=
      argmaxFirst_eq_head _ _ _ (List.pairwise_cons.mp hpair).1
    dsimp only
    rw [hfirst, List.erase_cons_head,
      ← mmrLoop_eq_spec_select k lam (simScore dist q) rest.length rest [c0] (by simp),
      List.take_of_length_le
        (mmrLoop_length_le k lam (simScore dist q) rest.length rest [c0] (by simpa using hk))]

/-- Witness for `mmr_search_follows_greedy_spec` at a concrete two-row store. -/
theorem mmr_search_follows_greedy_spec_witness :
    dbFetch wDist wStore [] 5 none ≠ []
    ∧ mmr_search wDist wStore [] 2 (1 / 2) 5 none
        = (spec_mmr_greedy 2 (1 / 2) (simScore wDist [])
            (dbFetch wDist wStore [] 5 none)).map
            (fun r => (r.toChunk, simScore wDist [] r)) := by
  have hne : dbFetch wDist wStore [] 5 none ≠ [] := by
    apply List.ne_nil_of_length_pos
    rw [dbFetch_length]
    simp [dbFilter, wStore]
  exact ⟨hne, mmr_search_follows_greedy_spec wDist wStore [] 2 (1 / 2) 5 none hne
    (by norm_num)⟩

/-- Claim C4: `mmr_search` returns at most `min k (min fetch_k storeSize)`
results, never returns the same chunk identifier twice (given that the store,
like the UUID-keyed table, has pairwise distinct row ids), and every returned
pair is a store row projected to a chunk together with its original query
similarity `1 - dist` (never the MMR score).  The selection order is the
subject of `mmr_search_follows_greedy_spec`. -/
theorem mmr_search_invariants (dist : List ℚ → List ℚ → ℚ) (store : List Row)
    (q : List ℚ) (k : Nat) (lam : ℚ) (fetchK : Nat)
    (filter : Option (List (String × String)))
    (hids : (store.map Row.id).Nodup) :
    (mmr_search dist store q k lam fetchK filter).length
        ≤ min k (min fetchK store.length)
    ∧ ((mmr_search dist store q k lam fetchK filter).map
        (fun p => p.1.id)).Nodup
    ∧ ∀ p ∈ mmr_search dist store q k lam fetchK filter,
        ∃ r ∈ store, p.1 = r.toChunk ∧ p.2 = 1 - dist r.embedding q := by
  have hlen := dbFetch_length dist store q fetchK filter
  have hsub := dbFetch_subset dist store q fetchK filter
  have hnd := dbFetch_map_id_nodup dist store q fetchK filter hids
  unfold mmr_search
  cases hC : dbFetch dist store q fetchK filter with
  | nil => simp
  | cons c0 rest =>
    rw [hC] at hlen hsub hnd
    dsimp only
    obtain ⟨rem', hperm⟩ :=
      mmrLoop_exists_perm k lam (simScore dist q) rest.length rest [c0]
    have hsubperm :
        ((mmrLoop k lam (simScore dist q) rest.length [c0] rest).take k).Subperm
          (c0 :: rest) :=
      ((List.take_sublist k _).trans
        (List.sublist_append_left _ rem')).subperm.trans hperm.subperm
    have hcands : (c0 :: rest).length ≤ min fetchK store.length := by
      have h1 : (dbFilter filter store).length ≤ store.length :=
        (dbFilter_sublist filter store).length_le
      omega
    refine ⟨?_, ?_, ?_⟩
    · have h1 :
          ((mmrLoop k lam (simScore dist q) rest.length [c0] rest).take k).length
            ≤ k := by simp
      have h2 := hsubperm.length_le
      simp only [List.length_map]
      omega
    · have h1 :
          (((mmrLoop k lam (simScore dist q) rest.length [c0] rest).take k).map
            Row.id).Nodup :=
        nodup_map_of_subperm Row.id hsubperm hnd
      rw [List.map_map]
      exact h1
    · intro p hp
      obtain ⟨r, hr, rfl⟩ := List.mem_map.mp hp
      exact ⟨r, hsub (hsubperm.subset hr), rfl, rfl⟩

/-- Witness for `mmr_search_invariants` at a concrete two-row store. -/
theorem mmr_search_invariants_witness :
    (wStore.map Row.id).Nodup
    ∧ (mmr_search wDist wStore [] 1 (1 / 2) 5 none).length
        ≤ min 1 (min 5 wStore.length)
    ∧ ((mmr_search wDist wStore [] 1 (1 / 2) 5 none).map
        (fun p => p.1.id)).Nodup := by
  have hids : (wStore.map Row.id).Nodup := by decide
  have h := mmr_search_invariants wDist wStore [] 1 (1 / 2) 5 none hids
  exact ⟨hids, h.1, h.2.1⟩

/-- Claim C3, counterexample: `rerank` output is *not* strictly descending in
general: two candidates with identical content receive the same cross-encoder
score, so adjacent output scores tie. -/
theorem rerank_not_strictly_descending :
    ¬ (((rerank cexScore "query" cexDocs 2).map Prod.snd).Pairwise
        (fun a b => b < a)) := by
  decide

/-- Claim C3, amended: `rerank` returns `[]` on empty input and otherwise
exactly `min topK |candidates|` scored chunks, sorted in non-increasing order
of the new cross-encoder score (strictly descending only when the new scores
are pairwise distinct; Python's stable sort keeps input order on ties); every
candidate is scored on the pair `(query, candidate.content)` and the new
scores fully replace the input scores; the output chunks are (a rearrangement
of a subset of) the rescored candidates. -/
theorem rerank_amended_properties (score : String → String → ℚ)
    (query : String) (docs : List (Chunk × ℚ)) (top_k : Nat) :
    rerank score query [] top_k = []
    ∧ (rerank score query docs top_k).length = min top_k docs.length
    ∧ ((rerank score query docs top_k).map Prod.snd).Pairwise (fun a b => b ≤ a)
    ∧ (∀ p ∈ rerank score query docs top_k, p.2 = score query p.1.content)
    ∧ (rerank score query docs top_k).Subperm
        (docs.map (fun d => (d.1, score query d.1.content))) :=
  ⟨rfl, rerank_length score query docs top_k,
    rerank_scores_antitone score query docs top_k,
    rerank_scores score query docs top_k,
    rerank_subperm score query docs top_k⟩

/-- Witness for `rerank_amended_properties` at a concrete candidate list. -/
theorem rerank_amended_properties_witness :
    ((⟨1, "same text", []⟩ : Chunk), (0 : ℚ)) ∈ rerank cexScore "q2" cexDocs 2
    ∧ ((⟨1, "same text", []⟩ : Chunk), (0 : ℚ)).2
        = cexScore "q2" (⟨1, "same text", []⟩ : Chunk).content := by
  have hmem : ((⟨1, "same text", []⟩ : Chunk), (0 : ℚ)) ∈
      rerank cexScore "q2" cexDocs 2 := by decide
  exact ⟨hmem, (rerank_amended_properties cexScore "q2" cexDocs 2).2.2.2.1 _ hmem⟩

/-- Claim C6, counterexample: `similarity_search` output is *not* strictly
descending in general: two rows with the same embedding are at the same
cosine distance from any query, so their similarity scores tie. -/
theorem similarity_search_not_strictly_descending :
    ¬ (((similarity_search cexDist cexStore [] 2 none).map Prod.snd).Pairwise
        (fun a b => b < a)) := by
  have hev : similarity_search cexDist cexStore [] 2 none
      = [(⟨1, "left", [], [1]⟩, 1 - 0), (⟨2, "right", [], [1]⟩, 1 - 0)] := by
    norm_num [similarity_search, dbFetch, dbFilter, cexStore,
      List.insertionSort, List.orderedInsert, rowLE, cexDist, simScore]
  rw [hev]
  simp

/-- Claim C6, amended: `similarity_search` returns at most `k` scored chunks in
non-increasing score order (strictly descending only when scores are
distinct; ties keep storage order), each score is `1 - dist(embedding, query)`,
and under a metadata filter every returned row's metadata contains the
filter's key/value pairs. -/
theorem similarity_search_amended_properties (dist : List ℚ → List ℚ → ℚ)
    (store : List Row) (q : List ℚ) (k : Nat)
    (filter : Option (List (String × String))) :
    (similarity_search dist store q k filter).length ≤ k
    ∧ (∀ p ∈ similarity_search dist store q k filter,
        p.2 = 1 - dist p.1.embedding q)
    ∧ ((similarity_search dist store q k filter).map Prod.snd).Pairwise
        (fun a b => b ≤ a)
    ∧ ∀ f, filter = some f →
        ∀ p ∈ similarity_search dist store q k filter,
          metaContains f p.1.metadata = true := by
  refine ⟨?_, similarity_search_score dist store q k filter,
    similarity_search_scores_antitone dist store q k filter, ?_⟩
  · rw [similarity_search_length]
    exact min_le_left _ _
  · rintro f rfl p hp
    obtain ⟨r, hr, rfl⟩ := List.mem_map.mp hp
    exact dbFetch_filter_matches dist store q k f r hr

/-- Witness for `similarity_search_amended_properties`: the filtered search
over a matching store returns a row whose metadata contains the filter. -/
theorem similarity_search_amended_properties_witness :
    metaContains wFilter
      (⟨7, "filtered content", [("filename", "a.pdf")], [0]⟩ : Row).metadata
      = true := by
  have hmem : ((⟨7, "filtered content", [("filename", "a.pdf")], [0]⟩ : Row),
      simScore wDist [] ⟨7, "filtered content", [("filename", "a.pdf")], [0]⟩)
      ∈ similarity_search wDist wStoreF [] 2 (some wFilter) := by
    simp [similarity_search, dbFetch, dbFilter, wStoreF, wFilter, metaContains,
      List.insertionSort]
  exact (similarity_search_amended_properties wDist wStoreF [] 2
    (some wFilter)).2.2.2 wFilter rfl _ hmem

/-- Claim C7, counterexample: With MMR retrieval and reranking both requested,
the reranker does *not* receive a pool of `2k` candidates: with `k = 1` and
four stored candidates the MMR retrieval step hands the reranker at most one
item (it is called with `fetch_k = 4k` but returns at most `k` rows). -/
theorem rag_rerank_pool_not_double_k :
    (dbFilter none wStore4).length = 4
    ∧ (rag_retrieve wDist wStore4 [] 1 true true none).length ≤ 1
    ∧ ¬ (1 < (rag_retrieve wDist wStore4 [] 1 true true none).length) := by
  have hle : (rag_retrieve wDist wStore4 [] 1 true true none).length ≤ 1 := by
    simpa [rag_retrieve] using
      mmr_search_length_le wDist wStore4 [] 1 (1 / 2) (1 * 4) none
  exact ⟨by decide, hle, by omega⟩

/-- Claim C7, amended: When reranking is requested, the *similarity* retrieval
path fetches `2k` candidates (the pool is `min (2k) matching`, wider than `k`
when enough rows match), while the *MMR* path calls `mmr_search` with
`fetch_k = 4k` and hands the reranker at most `k` items; in both cases the
reranker then reduces its pool to at most `k` results. -/
theorem rag_rerank_pool_amended (dist : List ℚ → List ℚ → ℚ) (store : List Row)
    (qemb : List ℚ) (k : Nat) (fm : Option (List (String × String)))
    (cs : String → String → ℚ) (question : String)
    (docs : List (Chunk × ℚ)) :
    rag_retrieve dist store qemb k false true fm
        = (similarity_search dist store qemb (k * 2) fm).map
            (fun p => (p.1.toChunk, p.2))
    ∧ (rag_retrieve dist store qemb k false true fm).length
        = min (k * 2) (dbFilter fm store).length
    ∧ rag_retrieve dist store qemb k true true fm
        = mmr_search dist store qemb k (1 / 2) (k * 4) fm
    ∧ (rag_retrieve dist store qemb k true true fm).length ≤ k
    ∧ (rerank cs question docs k).length ≤ k := by
  refine ⟨rfl, ?_, rfl, ?_, ?_⟩
  · show ((similarity_search dist store qemb (k * 2) fm).map
      (fun p => (p.1.toChunk, p.2))).length = _
    rw [List.length_map, similarity_search_length]
  · show (mmr_search dist store qemb k (1 / 2) (k * 4) fm).length ≤ k
    exact mmr_search_length_le dist store qemb k (1 / 2) (k * 4) fm
  · rw [rerank_length]
    exact min_le_left _ _

lemma rag_results_empty (dist : List ℚ → List ℚ → ℚ) (store : List Row)
    (qemb : List ℚ) (crossScore : Option (String → String → ℚ))
    (question : String) (k : Nat) (use_mmr use_rerank : Bool)
    (fd : Option String)
    (h : rag_retrieve dist store qemb k use_mmr use_rerank (mkFilterMeta fd) = []) :
    rag_results dist store qemb crossScore question k use_mmr use_rerank fd = [] := by
  unfold rag_results
  rw [h]
  cases use_rerank <;> cases crossScore <;> simp

lemma answer_with_rag_of_retrieve_empty (llm : List Msg → String × Nat)
    (embed : String → List ℚ) (dist : List ℚ → List ℚ → ℚ) (store : List Row)
    (crossScore : Option (String → String → ℚ)) (mgr : Option ConvState)
    (cid : Option String) (question : String) (k : Nat)
    (use_mmr use_rerank eco : Bool) (fd : Option String)
    (h : rag_retrieve dist store (embed question) k use_mmr use_rerank
      (mkFilterMeta fd) = []) :
    answer_with_rag llm embed dist store crossScore mgr cid question k
      use_mmr use_rerank eco fd = (rag_canned, mgr) := by
  unfold answer_with_rag
  rw [rag_results_empty dist store (embed question) crossScore question k
    use_mmr use_rerank fd h]
  rfl

/-- Claim C8: Zero retrieval results on the rag path and zero web results on
the web-search path are defined terminal states, not errors: the result is
the fixed "couldn't find" answer with empty sources and `num_tokens = 0`,
and the conversation store is untouched.  Both equations hold for *every*
LLM provider `llm`, which formalises that no LLM call contributes to the
result. -/
theorem empty_results_terminal_state (llm : List Msg → String × Nat)
    (embed : String → List ℚ) (dist : List ℚ → List ℚ → ℚ) (store : List Row)
    (crossScore : Option (String → String → ℚ)) (mgr : Option ConvState)
    (cid : Option String) (question : String) (k : Nat)
    (use_mmr use_rerank eco : Bool) (fd : Option String) :
    (rag_retrieve dist store (embed question) k use_mmr use_rerank
        (mkFilterMeta fd) = [] →
      answer_with_rag llm embed dist store crossScore mgr cid question k
        use_mmr use_rerank eco fd = (rag_canned, mgr))
    ∧ answer_with_web_search llm [] mgr cid question eco = (web_canned, mgr) :=
  ⟨fun h => answer_with_rag_of_retrieve_empty llm embed dist store crossScore
    mgr cid question k use_mmr use_rerank eco fd h, rfl⟩

/-- Witness for `empty_results_terminal_state`: querying an empty store. -/
theorem empty_results_terminal_state_witness :
    answer_with_rag wLLM wEmbed wDist [] none (some []) (some "c1") "question"
        1 false false false none = (rag_canned, some []) := by
  have h : rag_retrieve wDist [] (wEmbed "question") 1 false false
      (mkFilterMeta none) = [] := by
    simp [rag_retrieve, similarity_search, dbFetch, dbFilter, List.insertionSort]
  exact (empty_results_terminal_state wLLM wEmbed wDist [] none (some [])
    (some "c1") "question" 1 false false false none).1 h

/-- Claim C9: With an active conversation (non-empty id and available store),
the question/answer pair is appended to the conversation exactly on the
success paths of the direct-LLM, rag-with-results and web-search-with-results
pipelines, and the store is left unchanged on the "no results" early returns
of the rag and web-search paths. -/
theorem conversation_persistence_only_on_success
    (llm : List Msg → String × Nat) (embed : String → List ℚ)
    (dist : List ℚ → List ℚ → ℚ) (store : List Row)
    (crossScore : Option (String → String → ℚ)) (conv : ConvState) (c : String)
    (question : String) (k : Nat) (use_mmr use_rerank eco : Bool)
    (fd : Option String) (sr : List SearchResult) (hc : c ≠ "") :
    ((answer_directly llm (some conv) (some c) question eco).2
        = some (add_message (add_message conv c "user" question) c "assistant"
            (llm (direct_messages (some conv) (some c) question eco)).1))
    ∧ (rag_results dist store (embed question) crossScore question k use_mmr
          use_rerank fd = [] →
        (answer_with_rag llm embed dist store crossScore (some conv) (some c)
          question k use_mmr use_rerank eco fd).2 = some conv)
    ∧ (rag_results dist store (embed question) crossScore question k use_mmr
          use_rerank fd ≠ [] →
        (answer_with_rag llm embed dist store crossScore (some conv) (some c)
            question k use_mmr use_rerank eco fd).2
          = some (add_message (add_message conv c "user" question) c "assistant"
              (llm (rag_messages (some conv) (some c) question eco
                (rag_results dist store (embed question) crossScore question k
                  use_mmr use_rerank fd))).1))
    ∧ ((answer_with_web_search llm [] (some conv) (some c) question eco).2
        = some conv)
    ∧ (sr ≠ [] →
        (answer_with_web_search llm sr (some conv) (some c) question eco).2
          = some (add_message (add_message conv c "user" question) c "assistant"
              (llm (web_messages (some conv) (some c) question eco sr)).1)) := by
  have hbeq : (c == "") = false := by
    simpa using hc
  refine ⟨?_, fun h => ?_, fun h => ?_, rfl, fun h => ?_⟩
  · simp [answer_directly, persistQA, hbeq]
  · unfold answer_with_rag
    rw [h]
    rfl
  · unfold answer_with_rag
    cases hres : rag_results dist store (embed question) crossScore question k
        use_mmr use_rerank fd with
    | nil => exact absurd hres h
    | cons p ps =>
      simp [persistQA, hbeq]
  · cases sr with
    | nil => exact absurd rfl h
    | cons s ss =>
      simp [answer_with_web_search, persistQA, hbeq]

/-- Witness for `conversation_persistence_only_on_success`: empty web results
leave the store unchanged, a direct answer appends the question/answer pair. -/
theorem conversation_persistence_only_on_success_witness :
    (answer_with_web_search wLLM [] (some []) (some "c2") "hi there" false).2
        = some []
    ∧ (answer_directly wLLM (some []) (some "c2") "hi there" false).2
        = some (add_message (add_message [] "c2" "user" "hi there") "c2"
            "assistant"
            (wLLM (direct_messages (some []) (some "c2") "hi there" false)).1) := by
  have h := conversation_persistence_only_on_success wLLM wEmbed wDist []
    none [] "c2" "hi there" 1 false false false none [] (by decide)
  exact ⟨h.2.2.2.1, h.1⟩

/-- Claim C10: When the rag-path retrieval produces zero chunks, the returned
result always reports `retrieval_method = "similarity"` and
`reranked = false`, regardless of the requested `use_mmr`/`use_rerank`. -/
theorem rag_no_results_reports_similarity_unreranked
    (llm : List Msg → String × Nat) (embed : String → List ℚ)
    (dist : List ℚ → List ℚ → ℚ) (store : List Row)
    (crossScore : Option (String → String → ℚ)) (mgr : Option ConvState)
    (cid : Option String) (question : String) (k : Nat)
    (use_mmr use_rerank eco : Bool) (fd : Option String)
    (h : rag_retrieve dist store (embed question) k use_mmr use_rerank
      (mkFilterMeta fd) = []) :
    (answer_with_rag llm embed dist store crossScore mgr cid question k
        use_mmr use_rerank eco fd).1.retrieval_method = some "similarity"
    ∧ (answer_with_rag llm embed dist store crossScore mgr cid question k
        use_mmr use_rerank eco fd).1.reranked = some false := by
  have he := answer_with_rag_of_retrieve_empty llm embed dist store crossScore
    mgr cid question k use_mmr use_rerank eco fd h
  rw [he]
  exact ⟨rfl, rfl⟩

/-- Witness for `rag_no_results_reports_similarity_unreranked` with both MMR
and reranking requested on an empty store. -/
theorem rag_no_results_reports_similarity_unreranked_witness :
    (answer_with_rag wLLM wEmbed wDist [] (some cexScore) none none "q" 1
        true true false none).1.retrieval_method = some "similarity"
    ∧ (answer_with_rag wLLM wEmbed wDist [] (some cexScore) none none "q" 1
        true true false none).1.reranked = some false := by
  have h : rag_retrieve wDist [] (wEmbed "q") 1 true true
      (mkFilterMeta none) = [] := by
    simp [rag_retrieve, mmr_search, dbFetch, dbFilter, List.insertionSort]
  exact rag_no_results_reports_similarity_unreranked wLLM wEmbed wDist []
    (some cexScore) none none "q" 1 true true false none h

end DemoIndabax
